import Mathlib

/-!
SMEP++ expression pipeline and script runner.

A shallow embedding of `src/main.cpp`: the token data model, the two
tokenizers, the shunting-yard converter `infix_to_postfix`, the stack
evaluator `evaluate_postfix` and the per-line script runner `executeScript`;
and of the function table of `src/SMEPscript.h` and `src/SMEPscript.cpp`.

Conventions of the embedding.

* A C++ `double` is a value of an arbitrary type `α`; the arithmetic that
  the program takes from the language and the standard library (`+ - * /`,
  `std::pow`, the test `b == 0`, `stream >> num`, `std::stod`) is a
  `DoubleModel α`.  Theorems quantified over the model hold for IEEE
  arithmetic in particular.  `exact` is the model of exact rational
  arithmetic on decimal text, which agrees with IEEE arithmetic whenever
  every value involved is exactly representable.
* A `char` is a `Char`, a `std::string` a `List Char` or a `String`.
* A call either returns a value or ends in a `Fault`: one of the exceptions
  the program can throw, or `undefined_behaviour` for the operations C++
  leaves undefined (`top`/`pop` of an empty `std::stack`, `operator[]` past
  the end of a `std::vector`).
-/

namespace SMEP

/-! ## Data model -/

/-- The variant `Token` of `main.cpp`: `Number`, `Operator`, `Parenthesis`, `Variable`. -/
inductive Token (α : Type) where
  | Number (value : α)
  | Operator (symbol : Char)
  | Parenthesis (symbol : Char)
  | Variable (name : String)
  deriving DecidableEq, Repr

/-- The ways a call can end without a value. -/
inductive Fault where
  /-- Thrown `std::runtime_error(what)`. -/
  | runtime_error (what : String)
  /-- Thrown `std::invalid_argument(what)`. -/
  | invalid_argument (what : String)
  /-- Thrown `std::out_of_range(what)`. -/
  | out_of_range (what : String)
  /-- Thrown `std::bad_variant_access` (a `std::get` of the wrong alternative). -/
  | bad_variant_access
  /-- Undefined behaviour: `top`/`pop` of an empty stack, index past the end. -/
  | undefined_behaviour
  deriving DecidableEq, Repr

/-- Whether a fault is a C++ exception, which `catch (const std::exception&)` handles. -/
def Fault.is_exception : Fault → Bool
  | Fault.undefined_behaviour => false
  | _ => true

/-- The `double` operations the program takes from the language and its library. -/
structure DoubleModel (α : Type) where
  /-- The sum `a + b`. -/
  add : α → α → α
  /-- The difference `a - b`. -/
  sub : α → α → α
  /-- The product `a * b`. -/
  mul : α → α → α
  /-- The quotient `a / b`. -/
  div : α → α → α
  /-- The power `std::pow(a, b)`. -/
  pow : α → α → α
  /-- The test `b == 0`. -/
  is_zero : α → Bool
  /-- The extraction `stream >> num` with the stream positioned at a digit or
  a `.`: the value left in `num`, and either the number of characters read
  after that first one, or `none` when the extraction sets `failbit`. -/
  extract : List Char → α × Option Nat
  /-- The conversion `std::stod(word)`. -/
  stod : List Char → Except Fault α

/-! ## Arithmetic -/

/-- Operator precedence: `^` is 3, `*` and `/` are 2, `+` and `-` are 1, all else 0. -/
def precedence (op : Char) : Nat :=
  if op = '^' then 3
  else if op = '*' ∨ op = '/' then 2
  else if op = '+' ∨ op = '-' then 1
  else 0

/-- Applies the binary operator `op` to `a` and `b`. -/
def apply_operator {α : Type} (A : DoubleModel α) (a b : α) (op : Char) : Except Fault α :=
  if op = '+' then .ok (A.add a b)
  else if op = '-' then .ok (A.sub a b)
  else if op = '*' then .ok (A.mul a b)
  else if op = '/' then
    if A.is_zero b then .error (Fault.runtime_error "Division by zero")
    else .ok (A.div a b)
  else if op = '^' then .ok (A.pow a b)
  else .error (Fault.invalid_argument "Unknown operator")

/-! ## Shunting-yard converter -/

/-- The inner `while` of the Operator case: moves operators of precedence at
least that of `op` from the top of the stack to the output.  The output
vector `postfix` of the source is written `out`, `postfix` being a reserved
word. -/
def pop_operators {α : Type} (op : Char) :
    List (Token α) → List (Token α) → List (Token α) × List (Token α)
  | Token.Operator top_op :: operators, out =>
    if precedence top_op ≥ precedence op then
      pop_operators op operators (out ++ [Token.Operator top_op])
    else (Token.Operator top_op :: operators, out)
  | operators, out => (operators, out)

/-- The `while` of the `)` case: moves stack entries to the output until the
top of the stack is a Parenthesis or the stack is empty. -/
def pop_until_parenthesis {α : Type} :
    List (Token α) → List (Token α) → List (Token α) × List (Token α)
  | Token.Parenthesis p :: operators, out => (Token.Parenthesis p :: operators, out)
  | top :: operators, out => pop_until_parenthesis operators (out ++ [top])
  | [], out => ([], out)

/-- The `for` loop of `infix_to_postfix` followed by its final `while`; the
operator stack `operators` has its top at the head. -/
def infix_to_postfix_loop {α : Type} :
    List (Token α) → List (Token α) → List (Token α) → Except Fault (List (Token α))
  | [], operators, out => .ok (out ++ operators)
  | Token.Number v :: tokens, operators, out =>
    infix_to_postfix_loop tokens operators (out ++ [Token.Number v])
  | Token.Operator op :: tokens, operators, out =>
    let r := pop_operators op operators out
    infix_to_postfix_loop tokens (Token.Operator op :: r.1) r.2
  | Token.Parenthesis p :: tokens, operators, out =>
    if p = '(' then infix_to_postfix_loop tokens (Token.Parenthesis p :: operators) out
    else if p = ')' then
      match pop_until_parenthesis operators out with
      | ([], _) => .error Fault.undefined_behaviour
      | (_ :: operators', out') => infix_to_postfix_loop tokens operators' out'
    else infix_to_postfix_loop tokens operators out
  | Token.Variable _ :: _, _, _ => .error Fault.bad_variant_access

/-- Converts an infix token sequence to postfix order. -/
def infix_to_postfix {α : Type} (tokens : List (Token α)) : Except Fault (List (Token α)) :=
  infix_to_postfix_loop tokens [] []

/-! ## Postfix evaluator -/

/-- The `for` loop of `evaluate_postfix`; the stack `values` has its top at the head. -/
def evaluate_postfix_loop {α : Type} (A : DoubleModel α) :
    List (Token α) → List α → Except Fault (List α)
  | [], values => .ok values
  | Token.Number v :: tokens, values => evaluate_postfix_loop A tokens (v :: values)
  | Token.Operator op :: tokens, values =>
    match values with
    | b :: a :: values' =>
      match apply_operator A a b op with
      | .ok r => evaluate_postfix_loop A tokens (r :: values')
      | .error e => .error e
    | _ => .error Fault.undefined_behaviour
  | _ :: tokens, values => evaluate_postfix_loop A tokens values

/-- Evaluates a postfix token sequence: the top of the stack after the loop. -/
def evaluate_postfix {α : Type} (A : DoubleModel α) (tokens : List (Token α)) : Except Fault α :=
  match evaluate_postfix_loop A tokens [] with
  | .ok (top :: _) => .ok top
  | .ok [] => .error Fault.undefined_behaviour
  | .error e => .error e

/-- The converter followed by the evaluator, as in the `try` block of `main`. -/
def evaluate_expression {α : Type} (A : DoubleModel α) (tokens : List (Token α)) : Except Fault α :=
  match infix_to_postfix tokens with
  | .ok out => evaluate_postfix A out
  | .error e => .error e

/-! ## Characters and tokenizers -/

/-- The classification `std::isdigit`: the ten decimal digits. -/
def isdigit (c : Char) : Bool := decide (48 ≤ c.toNat ∧ c.toNat ≤ 57)

/-- The classification `std::isalpha` in the "C" locale: the 52 letters. -/
def isalpha (c : Char) : Bool :=
  decide ((65 ≤ c.toNat ∧ c.toNat ≤ 90) ∨ (97 ≤ c.toNat ∧ c.toNat ≤ 122))

/-- The classification `std::isspace` in the "C" locale: space, `\t`, `\n`, `\v`, `\f`, `\r`. -/
def isspace (c : Char) : Bool := decide (c.toNat = 32 ∨ (9 ≤ c.toNat ∧ c.toNat ≤ 13))

/-- The test `std::strchr(set, ch)` taken as a condition: `ch` occurs in the
string literal `set`, whose terminating null character is part of it. -/
def strchr (set : List Char) (ch : Char) : Bool := set.contains ch || ch == Char.ofNat 0

/-- Whether `name` is non-empty and starts with a letter. -/
def is_valid_variable_name (name : List Char) : Bool :=
  match name with
  | [] => false
  | c :: _ => isalpha c

/-- The `while (stream >> ch)` loop of `tokenize`.  The counter is the number
of characters at the front of the stream that the last number extraction has
already read. -/
def tokenize_loop {α : Type} (A : DoubleModel α) : List Char → Nat → List (Token α)
  | [], _ => []
  | _ :: stream, skip + 1 => tokenize_loop A stream skip
  | ch :: stream, 0 =>
    if isspace ch then tokenize_loop A stream 0
    else if isdigit ch ∨ ch = '.' then
      match A.extract (ch :: stream) with
      | (num, some n) => Token.Number num :: tokenize_loop A stream n
      | (num, none) => [Token.Number num]
    else if strchr ['+', '-', '*', '/', '^'] ch then
      Token.Operator ch :: tokenize_loop A stream 0
    else if ch = '(' ∨ ch = ')' then Token.Parenthesis ch :: tokenize_loop A stream 0
    else tokenize_loop A stream 0

/-- The plain tokenizer: one token per numeric lexeme, operator character and parenthesis. -/
def tokenize {α : Type} (A : DoubleModel α) (expr : List Char) : List (Token α) :=
  tokenize_loop A expr 0

/-- The shapes the plain tokenizer is meant to return: a Number, an Operator
among `+ - * / ^`, a Parenthesis `(` or `)`. -/
def plain_shape {α : Type} : Token α → Bool
  | Token.Number _ => true
  | Token.Operator s => decide (s ∈ ['+', '-', '*', '/', '^'])
  | Token.Parenthesis s => decide (s = '(' ∨ s = ')')
  | Token.Variable _ => false

/-- Reads the stream word by word as successive `stream >> word` extractions
do; `word` holds the characters of the word being read. -/
def split_words_loop : List Char → List Char → List (List Char)
  | [], word => if word.isEmpty then [] else [word]
  | c :: stream, word =>
    if isspace c then
      if word.isEmpty then split_words_loop stream [] else word :: split_words_loop stream []
    else split_words_loop stream (word ++ [c])

/-- The words of a line: its maximal runs of characters that are not whitespace. -/
def split_words (expr : List Char) : List (List Char) := split_words_loop expr []

/-- The body of the `while (stream >> word)` loop of `tokenize_script`: the
token of one word, if it has one. -/
def tokenize_word {α : Type} (A : DoubleModel α) (word : List Char) :
    Except Fault (Option (Token α)) :=
  if word = ['='] then .ok (some (Token.Operator '='))
  else if is_valid_variable_name word then .ok (some (Token.Variable (String.mk word)))
  else if isdigit (word.headD (Char.ofNat 0)) ∨ word.headD (Char.ofNat 0) = '.' then
    match A.stod word with
    | .ok num => .ok (some (Token.Number num))
    | .error e => .error e
  else if strchr ['+', '-', '*', '/', '^', '(', ')'] (word.headD (Char.ofNat 0)) then
    .ok (some (Token.Operator (word.headD (Char.ofNat 0))))
  else .ok none

/-- The `while (stream >> word)` loop of `tokenize_script` over the words of the line. -/
def tokenize_script_loop {α : Type} (A : DoubleModel α) :
    List (List Char) → Except Fault (List (Token α))
  | [] => .ok []
  | word :: words =>
    match tokenize_word A word with
    | .error e => .error e
    | .ok t =>
      match tokenize_script_loop A words with
      | .error e => .error e
      | .ok tokens => .ok (t.toList ++ tokens)

/-- The script tokenizer: one token per whitespace-delimited word that has one. -/
def tokenize_script {α : Type} (A : DoubleModel α) (expr : List Char) :
    Except Fault (List (Token α)) :=
  tokenize_script_loop A (split_words expr)

/-- The `try` block of `main` for one input line: tokenize, convert, evaluate. -/
def evaluate_input {α : Type} (A : DoubleModel α) (input : List Char) : Except Fault α :=
  evaluate_expression A (tokenize A input)

/-! ## Exact arithmetic -/

/-- The value of a decimal digit character. -/
def digit_value (c : Char) : Nat := c.toNat - 48

/-- The value of a sequence of decimal digits. -/
def digits_value (ds : List Char) : Nat := ds.foldl (fun n c => 10 * n + digit_value c) 0

/-- Scales `m` by ten to the power `e`, downwards when `negative`. -/
def scale10 (m : ℚ) (negative : Bool) (e : Nat) : ℚ :=
  if negative then m / 10 ^ e else m * 10 ^ e

/-- An optional sign at the front of an exponent: whether it is `-`, how many
characters it takes, and the rest. -/
def exponent_sign : List Char → Bool × Nat × List Char
  | '+' :: s => (false, 1, s)
  | '-' :: s => (true, 1, s)
  | s => (false, 0, s)

/-- The extraction `stream >> num` for decimal text, as `std::num_get` scans
it: digits, at most one `.`, and after at least one digit an `e` or `E` with
an optional sign and digits.  The text read must convert as a whole, else
`num` is 0 and `failbit` is set. -/
def extract_decimal (s : List Char) : ℚ × Option Nat :=
  let ip := s.span isdigit
  let fp : Nat × List Char × List Char :=
    match ip.2 with
    | '.' :: t => (1, (t.span isdigit).1, (t.span isdigit).2)
    | t => (0, [], t)
  let mantissa : ℚ := (digits_value (ip.1 ++ fp.2.1) : ℚ) / 10 ^ fp.2.1.length
  let read := ip.1.length + fp.1 + fp.2.1.length
  if ip.1.isEmpty ∧ fp.2.1.isEmpty then (0, none)
  else
    match fp.2.2 with
    | e :: t =>
      if e = 'e' ∨ e = 'E' then
        let sg := exponent_sign t
        let ed := (sg.2.2.span isdigit).1
        if ed.isEmpty then (0, none)
        else (scale10 mantissa sg.1 (digits_value ed), some (read + sg.2.1 + ed.length))
      else (mantissa, some (read - 1))
    | [] => (mantissa, some (read - 1))

/-- The conversion `std::stod` for decimal text, on the words the script
tokenizer passes to it (first character a digit or `.`): the longest prefix
of the form digits, optional `.` and digits, optional exponent with at least
one digit; `std::invalid_argument` when that prefix has no digit. -/
def stod_decimal (word : List Char) : Except Fault ℚ :=
  let ip := word.span isdigit
  let fp : List Char × List Char :=
    match ip.2 with
    | '.' :: t => t.span isdigit
    | t => ([], t)
  let mantissa : ℚ := (digits_value (ip.1 ++ fp.1) : ℚ) / 10 ^ fp.1.length
  if ip.1.isEmpty ∧ fp.1.isEmpty then .error (Fault.invalid_argument "stod")
  else
    match fp.2 with
    | e :: t =>
      if e = 'e' ∨ e = 'E' then
        let sg := exponent_sign t
        let ed := (sg.2.2.span isdigit).1
        if ed.isEmpty then .ok mantissa
        else .ok (scale10 mantissa sg.1 (digits_value ed))
      else .ok mantissa
    | [] => .ok mantissa

/-- The power `std::pow(a, b)` in exact arithmetic for an integer exponent
`b`; the powers for other exponents are not rational in general and are left
at 0. -/
def rational_pow (a b : ℚ) : ℚ := if b.den = 1 then a ^ b.num else 0

/-- Exact rational arithmetic on decimal text: the model in which no
operation rounds or overflows. -/
def exact : DoubleModel ℚ where
  add := fun a b => a + b
  sub := fun a b => a - b
  mul := fun a b => a * b
  div := fun a b => a / b
  pow := rational_pow
  is_zero := fun b => decide (b = 0)
  extract := extract_decimal
  stod := stod_decimal

/-! ## Script runner -/

/-- The global `variables`: the Variable Store, a map from names to values.
A store is written `vars` below, `variables` being a reserved word. -/
abbrev Store (α : Type) := String → Option α

/-- The store without any entry. -/
def Store.empty {α : Type} : Store α := fun _ => none

/-- The assignment `variables[name] = value`: inserts or overwrites. -/
def Store.set {α : Type} (vars : Store α) (name : String) (value : α) : Store α :=
  fun n => if n = name then some value else vars n

/-- What the script runner writes for one line. -/
inductive Output (α : Type) where
  /-- To `std::cout`: `name = value`. -/
  | assigned (name : String) (value : α)
  /-- To `std::cout`: the value of a printed variable. -/
  | printed (value : α)
  /-- To `std::cout`: `Result: value`. -/
  | result (value : α)
  /-- To `std::cerr`: `Error: Undefined variable name`. -/
  | undefined_variable (name : String)
  /-- To `std::cerr`: `Error in script execution: ` and the text of the caught exception. -/
  | script_error (e : Fault)
  deriving DecidableEq, Repr

/-- Modelled from the spec: the member `Operator::operator==` that `main.cpp`
declares and `executeScript` calls as `tokens[0] == Operator{'p'}`, and that
no source file defines.  The spec reads the test as "first token is an
Operator with symbol `p`": the token is an Operator with the same symbol. -/
def Operator.eq {α : Type} (symbol : Char) (value : Token α) : Bool :=
  match value with
  | Token.Operator s => decide (s = symbol)
  | _ => false

/-- The condition of the assignment branch of `executeScript`: the tokens are
not empty and the first one is the Operator `=`. -/
def is_assignment {α : Type} (tokens : List (Token α)) : Bool :=
  match tokens with
  | Token.Operator s :: _ => decide (s = '=')
  | _ => false

/-- The statements of the `try` block of `executeScript` for the tokens of one line:
the store and the output they leave, or the fault that ends them. -/
def execute_statement {α : Type} (A : DoubleModel α) (vars : Store α)
    (tokens : List (Token α)) : Except Fault (Store α × List (Output α)) :=
  if is_assignment tokens then
    match tokens with
    | _ :: Token.Variable var_name :: _ =>
      match evaluate_postfix A tokens with
      | .ok result => .ok (vars.set var_name result, [Output.assigned var_name result])
      | .error e => .error e
    | _ :: _ :: _ => .error Fault.bad_variant_access
    | _ => .error Fault.undefined_behaviour
  else
    match tokens with
    | [] => .error Fault.undefined_behaviour
    | first :: _ =>
      if Operator.eq 'p' first then
        match tokens with
        | [_, Token.Variable var_name] =>
          match vars var_name with
          | some value => .ok (vars, [Output.printed value])
          | none => .ok (vars, [Output.undefined_variable var_name])
        | _ => .ok (vars, [])
      else
        match evaluate_postfix A tokens with
        | .ok result => .ok (vars, [Output.result result])
        | .error e => .error e

/-- The `try` block of `executeScript` with its `catch`: an exception is
reported and the store stays as it was; undefined behaviour is not caught. -/
def execute_tokens {α : Type} (A : DoubleModel α) (vars : Store α)
    (tokens : List (Token α)) : Except Fault (Store α × List (Output α)) :=
  match execute_statement A vars tokens with
  | .ok r => .ok r
  | .error e =>
    if e.is_exception then .ok (vars, [Output.script_error e]) else .error e

/-- One iteration of the `while (std::getline(scriptFile, line))` loop: the
line is tokenized outside the `try` block, then executed inside it. -/
def execute_line {α : Type} (A : DoubleModel α) (vars : Store α) (line : String) :
    Except Fault (Store α × List (Output α)) :=
  match tokenize_script A line.data with
  | .error e => .error e
  | .ok tokens => execute_tokens A vars tokens

/-- The script runner over the lines of an opened script file: the final
store and everything written, or the fault that ends the run (an exception
that leaves `executeScript`, or undefined behaviour). -/
def executeScript {α : Type} (A : DoubleModel α) :
    Store α → List String → Except Fault (Store α × List (Output α))
  | vars, [] => .ok (vars, [])
  | vars, line :: lines =>
    match execute_line A vars line with
    | .error e => .error e
    | .ok r =>
      match executeScript A r.1 lines with
      | .error e => .error e
      | .ok r' => .ok (r'.1, r.2 ++ r'.2)

/-! ## Function table

The registration macro and the call of `SMEPscript.h` and `SMEPscript.cpp`. -/

/-- The variant `var`: an `int`, a `float`, a `double` or a `bool`. -/
inductive Var (α : Type) where
  | int (value : Int)
  | float (value : α)
  | double (value : α)
  | bool (value : Bool)

/-- The struct `Function`: a name and a body from an argument list to a `var`. -/
structure Function (α : Type) where
  /-- The name the function is registered under. -/
  name : String
  /-- The callable `std::function<var(const args&)>`. -/
  body : List (Var α) → Except Fault (Var α)

/-- The map `functionTable` from names to functions. -/
abbrev FunctionTable (α : Type) := String → Option (Function α)

/-- The macro `makeFunction(name, numArgs, returnStatement, FunctionTable)`:
stores under `name` the function whose body throws when the number of
arguments is not `numArgs` and otherwise returns `returnStatement`, an
expression over the argument list. -/
def makeFunction {α : Type} (name : String) (numArgs : Nat)
    (returnStatement : List (Var α) → Except Fault (Var α)) (table : FunctionTable α) :
    FunctionTable α :=
  fun n =>
    if n = name then
      some
        { name := name
          body := fun args =>
            if args.length ≠ numArgs then
              .error (Fault.invalid_argument "Incorrect number of arguments.")
            else returnStatement args }
    else table n

/-- Calls the function registered under `name`, if there is one. -/
def callFunction {α : Type} (name : String) (args : List (Var α)) (table : FunctionTable α) :
    Except Fault (Var α) :=
  match table name with
  | some f => f.body args
  | none => .error (Fault.runtime_error "Function not found")

/-! ## Reference reading of infix expressions

The grammar `expr := term (('+'|'-') term)*`, `term := factor (('*'|'/') factor)*`,
`factor := base ('^' base)*`, `base := Number | '(' expr ')'`, read with
left-to-right grouping within each level. -/

/-- An infix expression with its grouping: a Number, a parenthesised
expression, or a binary operation whose operands are grouped already. -/
inductive Expr (α : Type) where
  | number (value : α)
  | group (inner : Expr α)
  | binary (op : Char) (left right : Expr α)

/-- The infix token sequence that an expression is written as. -/
def Expr.tokens {α : Type} : Expr α → List (Token α)
  | Expr.number v => [Token.Number v]
  | Expr.group e => Token.Parenthesis '(' :: (e.tokens ++ [Token.Parenthesis ')'])
  | Expr.binary op l r => l.tokens ++ Token.Operator op :: r.tokens

/-- The reverse Polish form of an expression: operands first, then the operator. -/
def Expr.rpn {α : Type} : Expr α → List (Token α)
  | Expr.number v => [Token.Number v]
  | Expr.group e => e.rpn
  | Expr.binary op l r => l.rpn ++ (r.rpn ++ [Token.Operator op])

/-- The value of an expression read as it is grouped: both operands, left
first, then the operator applied to them. -/
def Expr.value {α : Type} (A : DoubleModel α) : Expr α → Except Fault α
  | Expr.number v => .ok v
  | Expr.group e => e.value A
  | Expr.binary op l r =>
    match l.value A with
    | .error e => .error e
    | .ok a =>
      match r.value A with
      | .error e => .error e
      | .ok b => apply_operator A a b op

/-- Whether an expression is generated by the grammar at a level: level 1 is
`expr`, level 2 `term`, level 3 `factor`, level 4 `base`.  A binary operation
of precedence `p` stands at the levels up to `p`; its left operand stands at
level `p` (left-to-right grouping) and its right operand at level `p + 1`. -/
def Expr.fits {α : Type} : Expr α → Nat → Bool
  | Expr.number _, _ => true
  | Expr.group e, _ => e.fits 1
  | Expr.binary op l r, level =>
    decide (op ∈ ['+', '-', '*', '/', '^']) && decide (level ≤ precedence op)
      && l.fits (precedence op) && r.fits (precedence op + 1)

/-- Whether the operator stack lets an expression of a level through: its top
is not an Operator of that precedence or more, so that no Operator of the
expression pops it. -/
def stack_below {α : Type} (level : Nat) : List (Token α) → Bool
  | Token.Operator top_op :: _ => decide (precedence top_op < level)
  | _ => true

/-- The tokens of `( 3 + 4 ) * 2`. -/
def grouped_sum_tokens : List (Token ℚ) :=
  [Token.Parenthesis '(', Token.Number 3, Token.Operator '+', Token.Number 4,
    Token.Parenthesis ')', Token.Operator '*', Token.Number 2]

/-- The expression `1 - 2 - 3 * (4 + 5) / 6`, grouped as the grammar reads it. -/
def sample_expression : Expr ℚ :=
  Expr.binary '-' (Expr.binary '-' (Expr.number 1) (Expr.number 2))
    (Expr.binary '/'
      (Expr.binary '*' (Expr.number 3)
        (Expr.group (Expr.binary '+' (Expr.number 4) (Expr.number 5))))
      (Expr.number 6))

/-! ## Shapes of token sequences -/

/-- Whether a token is a Number. -/
def Token.is_number {α : Type} : Token α → Bool
  | Token.Number _ => true
  | _ => false

/-- Whether a token is an Operator. -/
def Token.is_operator {α : Type} : Token α → Bool
  | Token.Operator _ => true
  | _ => false

/-- Whether a token is a Parenthesis. -/
def Token.is_parenthesis {α : Type} : Token α → Bool
  | Token.Parenthesis _ => true
  | _ => false

/-- Whether a token is a Variable. -/
def Token.is_variable {α : Type} : Token α → Bool
  | Token.Variable _ => true
  | _ => false

/-- The nesting depth after a token sequence read from depth `depth`: `(`
opens a level, `)` closes one, and there is no depth when a `)` has no open
`(` to close. -/
def paren_depth {α : Type} : List (Token α) → Nat → Option Nat
  | [], depth => some depth
  | Token.Parenthesis p :: tokens, depth =>
    if p = '(' then paren_depth tokens (depth + 1)
    else if p = ')' then
      match depth with
      | 0 => none
      | d + 1 => paren_depth tokens d
    else paren_depth tokens depth
  | _ :: tokens, depth => paren_depth tokens depth

/-- Whether the parentheses of a token sequence are balanced. -/
def balanced {α : Type} (tokens : List (Token α)) : Bool :=
  paren_depth tokens 0 == some 0

/-! ## The expression pipeline on the examples of the specification -/

/-- C1: running the plain pipeline on the text `3 + 4 * 2` (tokenize, then
infix_to_postfix, then evaluate_postfix) yields exactly 11: the tokenizer
returns the five tokens `3 + 4 * 2`, the converter the postfix sequence
`3 4 2 * +`, and the evaluator the value 11. -/
theorem pipeline_three_plus_four_times_two :
    tokenize exact "3 + 4 * 2".data
        = [Token.Number 3, Token.Operator '+', Token.Number 4, Token.Operator '*',
            Token.Number 2]
      ∧ infix_to_postfix (tokenize exact "3 + 4 * 2".data)
        = .ok [Token.Number 3, Token.Number 4, Token.Number 2, Token.Operator '*',
            Token.Operator '+']
      ∧ evaluate_input exact "3 + 4 * 2".data = .ok 11 := by
  refine ⟨?_, ?_, ?_⟩ <;> with_unfolding_all rfl

/-- C2: for all numbers a, b, c the expression `a + b * c` is converted to
the postfix sequence `a b c * +` and evaluates to `a + (b * c)`; it does not
evaluate to `(a + b) * c` (in exact arithmetic `1 + 2 * 3` gives 7, not 9). -/
theorem add_mul_precedence {α : Type} (A : DoubleModel α) (a b c : α) :
    infix_to_postfix
        [Token.Number a, Token.Operator '+', Token.Number b, Token.Operator '*', Token.Number c]
        = .ok [Token.Number a, Token.Number b, Token.Number c, Token.Operator '*',
            Token.Operator '+']
      ∧ evaluate_expression A
        [Token.Number a, Token.Operator '+', Token.Number b, Token.Operator '*', Token.Number c]
        = .ok (A.add a (A.mul b c))
      ∧ evaluate_expression exact
        [Token.Number 1, Token.Operator '+', Token.Number 2, Token.Operator '*', Token.Number 3]
        ≠ .ok (exact.mul (exact.add 1 2) 3) := by
  refine ⟨rfl, rfl, ?_⟩
  have h : evaluate_expression exact
      [Token.Number 1, Token.Operator '+', Token.Number 2, Token.Operator '*', Token.Number 3]
      = .ok 7 := by with_unfolding_all rfl
  rw [h]
  intro hne
  have h7 : (7 : ℚ) = exact.mul (exact.add 1 2) 3 := Except.ok.inj hne
  simp only [exact] at h7
  norm_num at h7

/-- C3: for all numbers a, b, c the expression `a - b - c` is converted to
`a b - c -` and evaluates to `(a - b) - c`. -/
theorem sub_sub_left_associative {α : Type} (A : DoubleModel α) (a b c : α) :
    infix_to_postfix
        [Token.Number a, Token.Operator '-', Token.Number b, Token.Operator '-', Token.Number c]
        = .ok [Token.Number a, Token.Number b, Token.Operator '-', Token.Number c,
            Token.Operator '-']
      ∧ evaluate_expression A
        [Token.Number a, Token.Operator '-', Token.Number b, Token.Operator '-', Token.Number c]
        = .ok (A.sub (A.sub a b) c) :=
  ⟨rfl, rfl⟩

/-- C4: for all numbers a, b, c the expression `(a + b) * c` is converted to
`a b + c *` and evaluates to `(a + b) * c`; in exact arithmetic the text
`(3 + 4) * 2` yields 14. -/
theorem parenthesis_override {α : Type} (A : DoubleModel α) (a b c : α) :
    infix_to_postfix
        [Token.Parenthesis '(', Token.Number a, Token.Operator '+', Token.Number b,
          Token.Parenthesis ')', Token.Operator '*', Token.Number c]
        = .ok [Token.Number a, Token.Number b, Token.Operator '+', Token.Number c,
            Token.Operator '*']
      ∧ evaluate_expression A
        [Token.Parenthesis '(', Token.Number a, Token.Operator '+', Token.Number b,
          Token.Parenthesis ')', Token.Operator '*', Token.Number c]
        = .ok (A.mul (A.add a b) c)
      ∧ evaluate_input exact "(3 + 4) * 2".data = .ok 14 := by
  refine ⟨rfl, rfl, ?_⟩
  with_unfolding_all rfl

/-- C5: for every number a and every divisor z that compares equal to zero,
evaluating `a / z` through infix_to_postfix and evaluate_postfix ends in the
"Division by zero" runtime error and returns no value. -/
theorem division_by_zero_fails {α : Type} (A : DoubleModel α) (a z : α)
    (hz : A.is_zero z = true) :
    evaluate_expression A [Token.Number a, Token.Operator '/', Token.Number z]
      = .error (Fault.runtime_error "Division by zero") := by
  have hconv : infix_to_postfix [Token.Number a, Token.Operator '/', Token.Number z]
      = .ok [Token.Number a, Token.Number z, Token.Operator '/'] := rfl
  have happ : apply_operator A a z '/' = .error (Fault.runtime_error "Division by zero") := by
    simp [apply_operator, hz]
  simp [evaluate_expression, hconv, evaluate_postfix, evaluate_postfix_loop, happ]

/-- Witness of C5: in exact arithmetic `5 / 0`, as tokens and as text, fails
with "Division by zero". -/
theorem division_by_zero_fails_witness :
    exact.is_zero 0 = true
      ∧ evaluate_expression exact [Token.Number 5, Token.Operator '/', Token.Number 0]
        = .error (Fault.runtime_error "Division by zero")
      ∧ evaluate_input exact "5 / 0".data = .error (Fault.runtime_error "Division by zero") :=
  ⟨by with_unfolding_all rfl,
    division_by_zero_fails exact 5 0 (by with_unfolding_all rfl),
    by with_unfolding_all rfl⟩

/-! ## The script runner on the examples of the specification -/

/-- The tokens of the script line `= x 5`, when `std::stod` reads `5` as `five`. -/
theorem tokenize_script_assignment {α : Type} (A : DoubleModel α) (five : α)
    (h5 : A.stod ['5'] = .ok five) :
    tokenize_script A "= x 5".data
      = .ok [Token.Operator '=', Token.Variable "x", Token.Number five] := by
  have hw : split_words "= x 5".data = [['='], ['x'], ['5']] := by decide
  have h1 : tokenize_word A ['='] = .ok (some (Token.Operator '=')) := rfl
  have h2 : tokenize_word A ['x'] = .ok (some (Token.Variable "x")) := rfl
  have h3 : tokenize_word A ['5'] = .ok (some (Token.Number five)) := by
    have hd : isdigit '5' = true := by decide
    simp [tokenize_word, is_valid_variable_name, isalpha, hd, h5]
  simp [tokenize_script, hw, tokenize_script_loop, h1, h2, h3]

/-- An assignment statement never completes: the evaluator is given the whole
line, meets the Operator `=` on an empty stack, and takes `top` of it. -/
theorem execute_statement_assignment {α : Type} (A : DoubleModel α) (vars : Store α)
    (name : String) (tokens : List (Token α)) :
    execute_statement A vars (Token.Operator '=' :: Token.Variable name :: tokens)
      = .error Fault.undefined_behaviour := by
  simp [execute_statement, is_assignment, evaluate_postfix, evaluate_postfix_loop]

/-- C6, the code at the failing input: the script `= x 5`, `p x` does not
store 5 under `x` and does not print 5.  The line `= x 5` becomes the tokens
`=`, `x`, `5`, all three go to the evaluator, and the run ends at its first
token in undefined behaviour, whatever the store and the arithmetic; the line
`p x` becomes two Variable tokens and is not a print statement even when the
store holds `x`. -/
theorem assignment_then_print_faults {α : Type} (A : DoubleModel α) (vars : Store α) :
    (∀ r, executeScript A vars ["= x 5", "p x"] ≠ .ok r)
      ∧ tokenize_script exact "= x 5".data
        = .ok [Token.Operator '=', Token.Variable "x", Token.Number 5]
      ∧ evaluate_postfix exact [Token.Operator '=', Token.Variable "x", Token.Number 5]
        = .error Fault.undefined_behaviour
      ∧ executeScript exact Store.empty ["= x 5", "p x"] = .error Fault.undefined_behaviour
      ∧ execute_line exact (Store.empty.set "x" 5) "p x" = .error Fault.undefined_behaviour := by
  refine ⟨?_, by with_unfolding_all rfl, rfl, by with_unfolding_all rfl,
    by with_unfolding_all rfl⟩
  intro r hr
  have hline : ∀ r1, execute_line A vars "= x 5" ≠ .ok r1 := by
    intro r1 h1
    cases h5 : A.stod ['5'] with
    | error e =>
      have hw : split_words "= x 5".data = [['='], ['x'], ['5']] := by decide
      have t1 : tokenize_word A ['='] = .ok (some (Token.Operator '=')) := rfl
      have t2 : tokenize_word A ['x'] = .ok (some (Token.Variable "x")) := rfl
      have t3 : tokenize_word A ['5'] = .error e := by
        have hd : isdigit '5' = true := by decide
        simp [tokenize_word, is_valid_variable_name, isalpha, hd, h5]
      simp [execute_line, tokenize_script, hw, tokenize_script_loop, t1, t2, t3] at h1
    | ok five =>
      simp [execute_line, tokenize_script_assignment A five h5, execute_tokens,
        execute_statement_assignment, Fault.is_exception] at h1
  cases hl : execute_line A vars "= x 5" with
  | error e => simp [executeScript, hl] at hr
  | ok r1 => exact hline r1 hl

/-- A statement that starts with the Operator `=` never completes: it ends
in undefined behaviour or in `std::bad_variant_access`. -/
theorem execute_statement_assignment_faults {α : Type} (A : DoubleModel α) (vars : Store α)
    (tokens : List (Token α)) (hassign : is_assignment tokens = true) :
    execute_statement A vars tokens = .error Fault.undefined_behaviour
      ∨ execute_statement A vars tokens = .error Fault.bad_variant_access := by
  match tokens, hassign with
  | [Token.Operator s], h =>
    left
    simp [execute_statement, h]
  | Token.Operator s :: Token.Variable name :: rest, h =>
    left
    simp [execute_statement, h, evaluate_postfix, evaluate_postfix_loop]
  | Token.Operator s :: Token.Number v :: rest, h =>
    right
    simp [execute_statement, h]
  | Token.Operator s :: Token.Operator o :: rest, h =>
    right
    simp [execute_statement, h]
  | Token.Operator s :: Token.Parenthesis o :: rest, h =>
    right
    simp [execute_statement, h]

/-- An Operator token of the script tokenizer has the symbol `=`, one of
`+ - * / ^ ( )` or the null character; it is never the Operator `p`. -/
theorem tokenize_word_not_print_operator {α : Type} (A : DoubleModel α) (word : List Char)
    (t : Token α) (ht : tokenize_word A word = .ok (some t)) : Operator.eq 'p' t = false := by
  unfold tokenize_word at ht
  split at ht
  · simp only [Except.ok.injEq, Option.some.injEq] at ht
    subst ht
    rfl
  · split at ht
    · simp only [Except.ok.injEq, Option.some.injEq] at ht
      subst ht
      rfl
    · split at ht
      · cases hs : A.stod word with
        | error e => simp [hs] at ht
        | ok num =>
          simp only [hs, Except.ok.injEq, Option.some.injEq] at ht
          subst ht
          rfl
      · split at ht
        · rename_i hop
          simp only [Except.ok.injEq, Option.some.injEq] at ht
          subst ht
          simp only [Operator.eq, decide_eq_false_iff_not]
          intro hp
          rw [hp] at hop
          exact absurd hop (by decide)
        · simp at ht

/-- No token of a script line is the Operator `p`. -/
theorem tokenize_script_loop_not_print_operator {α : Type} (A : DoubleModel α) :
    ∀ (words : List (List Char)) (tokens : List (Token α)),
      tokenize_script_loop A words = .ok tokens → ∀ t ∈ tokens, Operator.eq 'p' t = false := by
  intro words
  induction words with
  | nil =>
    intro tokens h t ht
    simp only [tokenize_script_loop, Except.ok.injEq] at h
    subst h
    simp at ht
  | cons word words ih =>
    intro tokens h t ht
    unfold tokenize_script_loop at h
    cases hw : tokenize_word A word with
    | error e => simp [hw] at h
    | ok o =>
      cases hr : tokenize_script_loop A words with
      | error e => simp [hw, hr] at h
      | ok rest =>
        simp only [hw, hr, Except.ok.injEq] at h
        subst h
        rcases List.mem_append.mp ht with h1 | h2
        · cases o with
          | none => simp at h1
          | some t' =>
            simp only [Option.toList, List.mem_singleton] at h1
            subst h1
            exact tokenize_word_not_print_operator A word t hw
        · exact ih rest hr t h2

/-- No script line changes the store, and no script line is a print
statement: a line processed to its end leaves the store as it was and writes
either `Result: value` or the report of a caught exception. -/
theorem execute_line_result_or_error {α : Type} (A : DoubleModel α) (vars vars' : Store α)
    (line : String) (out : List (Output α))
    (hrun : execute_line A vars line = .ok (vars', out)) :
    vars' = vars
      ∧ ((∃ value, out = [Output.result value]) ∨ (∃ e, out = [Output.script_error e])) := by
  unfold execute_line at hrun
  cases htok : tokenize_script A line.data with
  | error e => simp [htok] at hrun
  | ok tokens =>
    simp only [htok] at hrun
    unfold execute_tokens at hrun
    cases hs : execute_statement A vars tokens with
    | error e =>
      rw [hs] at hrun
      by_cases he : e.is_exception = true
      · simp [he] at hrun
        exact ⟨hrun.1.symm, Or.inr ⟨e, hrun.2.symm⟩⟩
      · simp [he] at hrun
    | ok r =>
      rw [hs] at hrun
      simp only [Except.ok.injEq] at hrun
      subst hrun
      by_cases hassign : is_assignment tokens = true
      · rcases execute_statement_assignment_faults A vars tokens hassign with h | h <;>
          simp [h] at hs
      · unfold execute_statement at hs
        simp only [hassign] at hs
        cases tokens with
        | nil => simp at hs
        | cons first rest =>
          have hp : Operator.eq 'p' first = false :=
            tokenize_script_loop_not_print_operator A _ _ htok first (by simp)
          simp only [Bool.false_eq_true, if_false, hp] at hs
          cases hev : evaluate_postfix A (first :: rest) with
          | error e => simp [hev] at hs
          | ok v =>
            simp [hev] at hs
            exact ⟨hs.1.symm, Or.inl ⟨v, hs.2.symm⟩⟩

/-- The print statement on the tokens the spec describes: for the Operator
`p` followed by a Variable that the store does not hold, the runner reports
the undefined variable, writes no value and leaves the store as it was. -/
theorem print_statement_undefined_variable {α : Type} (A : DoubleModel α) (vars : Store α)
    (y : String) (hy : vars y = none) :
    execute_tokens A vars [Token.Operator 'p', Token.Variable y]
      = .ok (vars, [Output.undefined_variable y]) := by
  simp [execute_tokens, execute_statement, is_assignment, Operator.eq, hy]

/-- C7, the code at the failing input: the script line `p y` reports no
undefined variable.  The script tokenizer makes `p` a Variable, not the
Operator `p` that the print statement tests for, so the line is evaluated as
a bare expression; the evaluator skips both Variables and takes `top` of an
empty stack.  This holds for every store, with or without `y`, and for every
second Variable. -/
theorem print_line_is_not_a_print_statement {α : Type} (A : DoubleModel α) (vars : Store α) :
    tokenize_script A "p y".data = .ok [Token.Variable "p", Token.Variable "y"]
      ∧ execute_line A vars "p y" = .error Fault.undefined_behaviour
      ∧ ∀ y : String, execute_tokens A vars [Token.Variable "p", Token.Variable y]
          = .error Fault.undefined_behaviour :=
  ⟨rfl, rfl, fun _ => rfl⟩

/-- Running a script that is the concatenation of two lists of lines: the
second list runs from the store the first one leaves, and the outputs follow
one another. -/
theorem executeScript_append {α : Type} (A : DoubleModel α) (lines1 lines2 : List String) :
    ∀ (vars vars1 vars2 : Store α) (out1 out2 : List (Output α)),
      executeScript A vars lines1 = .ok (vars1, out1) →
      executeScript A vars1 lines2 = .ok (vars2, out2) →
      executeScript A vars (lines1 ++ lines2) = .ok (vars2, out1 ++ out2) := by
  induction lines1 with
  | nil =>
    intro vars vars1 vars2 out1 out2 h1 h2
    simp only [executeScript, Except.ok.injEq, Prod.mk.injEq] at h1
    obtain ⟨hv, ho⟩ := h1
    subst hv; subst ho
    simpa using h2
  | cons line lines ih =>
    intro vars vars1 vars2 out1 out2 h1 h2
    simp only [executeScript, List.cons_append] at h1 ⊢
    cases hl : execute_line A vars line with
    | error e => simp [hl] at h1
    | ok r =>
      simp only [hl] at h1 ⊢
      cases hr : executeScript A r.1 lines with
      | error e => simp [hr] at h1
      | ok r' =>
        simp only [hr, Except.ok.injEq, Prod.mk.injEq] at h1
        obtain ⟨hv, ho⟩ := h1
        have hrr : executeScript A r.1 lines = .ok (vars1, r'.2) := by rw [hr, ← hv]
        have hih := ih r.1 vars1 vars2 r'.2 out2 hrr h2
        simp only [List.append_eq] at hih ⊢
        rw [hih]
        simp [← ho]

/-- Resilience to a line whose error is raised inside the `try` block: when
the statement of the line `bad` throws an exception, the runner reports it,
leaves the store as it was and runs the following lines as if `bad` were not
in the script. -/
theorem executeScript_skips_caught_error {α : Type} (A : DoubleModel α)
    (lines1 lines2 : List String) (bad : String) (tokens : List (Token α)) (e : Fault)
    (vars vars1 vars2 : Store α) (out1 out2 : List (Output α))
    (h1 : executeScript A vars lines1 = .ok (vars1, out1))
    (htok : tokenize_script A bad.data = .ok tokens)
    (hbad : execute_statement A vars1 tokens = .error e) (he : e.is_exception = true)
    (h2 : executeScript A vars1 lines2 = .ok (vars2, out2)) :
    executeScript A vars (lines1 ++ bad :: lines2)
        = .ok (vars2, out1 ++ Output.script_error e :: out2)
      ∧ executeScript A vars (lines1 ++ lines2) = .ok (vars2, out1 ++ out2) := by
  refine ⟨?_, executeScript_append A lines1 lines2 vars vars1 vars2 out1 out2 h1 h2⟩
  have hline : execute_line A vars1 bad = .ok (vars1, [Output.script_error e]) := by
    simp [execute_line, htok, execute_tokens, hbad, he]
  have hrest : executeScript A vars1 (bad :: lines2)
      = .ok (vars2, Output.script_error e :: out2) := by
    simp [executeScript, hline, h2]
  exact executeScript_append A lines1 (bad :: lines2) vars vars1 vars2 out1 _ h1 hrest

/-- C8, the code at the failing input: the script `.`, `1` ends at its first
line.  The word `.` goes to `std::stod`, which throws `std::invalid_argument`;
the line is tokenized before the `try` block is entered, so the exception
leaves `executeScript` and the line `1`, which alone prints `Result: 1`, is
never processed. -/
theorem tokenizer_error_ends_the_script :
    execute_line exact Store.empty "." = .error (Fault.invalid_argument "stod")
      ∧ executeScript exact Store.empty [".", "1"] = .error (Fault.invalid_argument "stod")
      ∧ executeScript exact Store.empty ["1"] = .ok (Store.empty, [Output.result 1]) := by
  refine ⟨?_, ?_, ?_⟩ <;> with_unfolding_all rfl

/-- A statement that is not an assignment leaves the store as it is. -/
theorem execute_tokens_keeps_store {α : Type} (A : DoubleModel α) (vars vars' : Store α)
    (tokens : List (Token α)) (out : List (Output α))
    (hna : is_assignment tokens = false)
    (hrun : execute_tokens A vars tokens = .ok (vars', out)) : vars' = vars := by
  unfold execute_tokens at hrun
  cases hs : execute_statement A vars tokens with
  | error e =>
    rw [hs] at hrun
    by_cases he : e.is_exception = true
    · simp [he] at hrun
      exact hrun.1.symm
    · simp [he] at hrun
  | ok r =>
    rw [hs] at hrun
    simp only [Except.ok.injEq] at hrun
    subst hrun
    unfold execute_statement at hs
    simp only [hna] at hs
    cases tokens with
    | nil => simp at hs
    | cons first rest =>
      simp only [Bool.false_eq_true, if_false] at hs
      by_cases hp : Operator.eq 'p' first = true
      · simp only [hp, if_true] at hs
        split at hs
        · split at hs <;> simp at hs <;> exact hs.1.symm
        · simp at hs
          exact hs.1.symm
      · simp only [hp] at hs
        cases hev : evaluate_postfix A (first :: rest) with
        | error e => simp [hev] at hs
        | ok v =>
          simp [hev] at hs
          exact hs.1.symm

/-- C9: processing a script line that is not an assignment (a bare expression
or a print statement) leaves the Variable Store unchanged, so processing the
same line twice in a row yields the same output both times: whenever such a
line is processed to its end with store `vars'` and output `out`, `vars'` is
the store before the line, and the script made of the line twice ends with
that store and the output `out` followed by `out`. -/
theorem non_assignment_line_keeps_store {α : Type} (A : DoubleModel α) (vars vars' : Store α)
    (line : String) (tokens : List (Token α)) (out : List (Output α))
    (htok : tokenize_script A line.data = .ok tokens)
    (hna : is_assignment tokens = false)
    (hrun : execute_line A vars line = .ok (vars', out)) :
    vars' = vars ∧ executeScript A vars [line, line] = .ok (vars, out ++ out) := by
  have hkeep : vars' = vars := by
    have h := hrun
    simp only [execute_line, htok] at h
    exact execute_tokens_keeps_store A vars vars' tokens out hna h
  subst hkeep
  refine ⟨rfl, ?_⟩
  simp [executeScript, hrun]

/-- Witness of C9: in exact arithmetic the bare expression `3 4 +` prints
`Result: 7` and leaves the store; run twice it prints `Result: 7` twice. -/
theorem non_assignment_line_keeps_store_witness :
    tokenize_script exact "3 4 +".data
        = .ok [Token.Number 3, Token.Number 4, Token.Operator '+']
      ∧ is_assignment [Token.Number (3 : ℚ), Token.Number 4, Token.Operator '+'] = false
      ∧ execute_line exact (Store.empty.set "x" 5) "3 4 +"
        = .ok (Store.empty.set "x" 5, [Output.result 7])
      ∧ executeScript exact (Store.empty.set "x" 5) ["3 4 +", "3 4 +"]
        = .ok (Store.empty.set "x" 5, [Output.result 7] ++ [Output.result 7]) :=
  ⟨by with_unfolding_all rfl, rfl, by with_unfolding_all rfl,
    (non_assignment_line_keeps_store exact (Store.empty.set "x" 5) (Store.empty.set "x" 5)
      "3 4 +" [Token.Number 3, Token.Number 4, Token.Operator '+'] [Output.result 7]
      (by with_unfolding_all rfl) rfl (by with_unfolding_all rfl)).2⟩

/-! ## The plain tokenizer -/

/-- On a stream without the null character every token of the plain
tokenizer has one of the three plain shapes. -/
theorem tokenize_loop_plain_shape {α : Type} (A : DoubleModel α) (stream : List Char) :
    ∀ (skip : Nat), Char.ofNat 0 ∉ stream →
      ∀ t ∈ tokenize_loop A stream skip, plain_shape t = true := by
  induction stream with
  | nil => intro skip _ t ht; simp [tokenize_loop] at ht
  | cons ch stream ih =>
    intro skip hnul t ht
    have hch : ch ≠ Char.ofNat 0 := fun h => hnul (by simp [h])
    have hrest : Char.ofNat 0 ∉ stream := fun h => hnul (by simp [h])
    cases skip with
    | succ n => exact ih n hrest t (by simpa [tokenize_loop] using ht)
    | zero =>
      unfold tokenize_loop at ht
      split at ht
      · exact ih 0 hrest t ht
      · split at ht
        · cases hx : A.extract (ch :: stream) with
          | mk num r =>
            cases r with
            | none =>
              simp [hx] at ht
              subst ht
              rfl
            | some n =>
              simp [hx] at ht
              rcases ht with ht | ht
              · subst ht
                rfl
              · exact ih n hrest t ht
        · split at ht
          · rename_i hop
            simp at ht
            rcases ht with ht | ht
            · subst ht
              simp [strchr, hch] at hop
              simpa [plain_shape] using hop
            · exact ih 0 hrest t ht
          · split at ht
            · rename_i hpar
              simp at ht
              rcases ht with ht | ht
              · subst ht
                simpa [plain_shape] using hpar
              · exact ih 0 hrest t ht
            · exact ih 0 hrest t ht

/-- The plain tokenizer returns no Variable token and no Operator `=`, on every input. -/
theorem tokenize_loop_no_variable_no_assign {α : Type} (A : DoubleModel α)
    (stream : List Char) :
    ∀ (skip : Nat), ∀ t ∈ tokenize_loop A stream skip,
      (∀ name, t ≠ Token.Variable name) ∧ t ≠ Token.Operator '=' := by
  induction stream with
  | nil => intro skip t ht; simp [tokenize_loop] at ht
  | cons ch stream ih =>
    intro skip t ht
    cases skip with
    | succ n => exact ih n t (by simpa [tokenize_loop] using ht)
    | zero =>
      unfold tokenize_loop at ht
      split at ht
      · exact ih 0 t ht
      · split at ht
        · cases hx : A.extract (ch :: stream) with
          | mk num r =>
            cases r with
            | none =>
              simp [hx] at ht
              subst ht
              simp
            | some n =>
              simp [hx] at ht
              rcases ht with ht | ht
              · subst ht
                simp
              · exact ih n t ht
        · split at ht
          · rename_i hop
            simp at ht
            rcases ht with ht | ht
            · subst ht
              refine ⟨by simp, ?_⟩
              intro heq
              have hc : ch = '=' := by simpa using heq
              subst hc
              exact absurd hop (by decide)
            · exact ih 0 t ht
          · split at ht
            · simp at ht
              rcases ht with ht | ht
              · subst ht
                simp
              · exact ih 0 t ht
            · exact ih 0 t ht

/-- A character that is not a digit, a `.`, one of `+ - * / ^ ( )` or the
null character produces no token in the plain tokenizer. -/
theorem tokenize_loop_drops {α : Type} (A : DoubleModel α) (ch : Char) (stream : List Char)
    (hdigit : isdigit ch = false) (hdot : ch ≠ '.')
    (hop : ch ∉ ['+', '-', '*', '/', '^', '(', ')']) (hnul : ch ≠ Char.ofNat 0) :
    tokenize_loop A (ch :: stream) 0 = tokenize_loop A stream 0 := by
  simp only [List.mem_cons, List.mem_singleton, not_or, List.not_mem_nil, not_false_eq_true,
    and_true] at hop
  obtain ⟨h1, h2, h3, h4, h5, h6, h7⟩ := hop
  simp [tokenize_loop, hdigit, hdot, strchr, h1, h2, h3, h4, h5, h6, h7, hnul]

/-- C10, the code at the failing input: the plain tokenizer turns the null
character into a token.  The test `std::strchr("+-*/^", ch)` also succeeds
for the terminator of the literal, so the one-character input made of the
null character yields the Operator with that symbol, which is none of
`+ - * / ^`; the pipeline then takes `top` of an empty stack. -/
theorem tokenize_null_character {α : Type} (A : DoubleModel α) :
    tokenize A [Char.ofNat 0] = [Token.Operator (Char.ofNat 0)]
      ∧ Char.ofNat 0 ∉ ['+', '-', '*', '/', '^']
      ∧ isspace (Char.ofNat 0) = false
      ∧ evaluate_input A [Char.ofNat 0] = .error Fault.undefined_behaviour :=
  ⟨rfl, by decide, by decide, rfl⟩

/-! ## The script tokenizer, word by word -/

/-- C11, as stated, fails on the word `-5`: it is not `=`, its first character
is neither a letter nor a digit nor `.`, and it is not a single character, yet
the script tokenizer emits the Operator `-` for it; likewise `+x` gives the
Operator `+`. -/
theorem signed_word_yields_operator :
    ['-', '5'] ≠ ['='] ∧ isalpha '-' = false ∧ isdigit '-' = false ∧ '-' ≠ '.'
      ∧ ['-', '5'].length ≠ 1
      ∧ tokenize_word exact ['-', '5'] = .ok (some (Token.Operator '-'))
      ∧ tokenize_script exact "-5".data = .ok [Token.Operator '-']
      ∧ tokenize_script exact "+x".data = .ok [Token.Operator '+'] := by
  refine ⟨by decide, by decide, by decide, by decide, by decide, rfl, rfl, rfl⟩

/-- C11, amended: for every word that is not `=` and whose first character is
neither a letter, a digit, `.` nor the null character, the script tokenizer
looks at the first character only: if it is one of `+ - * / ^ ( )` the word
yields the Operator of that character, whatever follows it; otherwise the
word yields no token and the line is tokenized as without it. -/
theorem tokenize_word_first_character {α : Type} (A : DoubleModel α) (c : Char)
    (rest : List Char) (hne : c :: rest ≠ ['=']) (halpha : isalpha c = false)
    (hdigit : isdigit c = false) (hdot : c ≠ '.') (hnul : c ≠ Char.ofNat 0) :
    (c ∈ ['+', '-', '*', '/', '^', '(', ')'] →
        tokenize_word A (c :: rest) = .ok (some (Token.Operator c)))
      ∧ (c ∉ ['+', '-', '*', '/', '^', '(', ')'] →
        tokenize_word A (c :: rest) = .ok none
          ∧ ∀ words, tokenize_script_loop A ((c :: rest) :: words)
              = tokenize_script_loop A words) := by
  have hmem : strchr ['+', '-', '*', '/', '^', '(', ')'] c
      = decide (c ∈ ['+', '-', '*', '/', '^', '(', ')']) := by
    simp [strchr, hnul]
  constructor
  · intro hin
    have hs : strchr ['+', '-', '*', '/', '^', '(', ')'] c = true := by
      rw [hmem]; exact decide_eq_true hin
    simp [tokenize_word, hne, is_valid_variable_name, halpha, hdigit, hdot, hs]
  · intro hout
    have hs : strchr ['+', '-', '*', '/', '^', '(', ')'] c = false := by
      rw [hmem]; exact decide_eq_false hout
    have hword : tokenize_word A (c :: rest) = .ok none := by
      simp [tokenize_word, hne, is_valid_variable_name, halpha, hdigit, hdot, hs]
    refine ⟨hword, fun words => ?_⟩
    rw [tokenize_script_loop, hword]
    cases tokenize_script_loop A words <;> simp

/-- Witness of C11 amended: `-5` yields the Operator `-`, and `#5` yields no token. -/
theorem tokenize_word_first_character_witness :
    tokenize_word exact ['-', '5'] = .ok (some (Token.Operator '-'))
      ∧ tokenize_word exact ['#', '5'] = .ok none :=
  ⟨(tokenize_word_first_character exact '-' ['5'] (by decide) (by decide) (by decide)
      (by decide) (by decide)).1 (by decide),
    ((tokenize_word_first_character exact '#' ['5'] (by decide) (by decide) (by decide)
      (by decide) (by decide)).2 (by decide)).1⟩

/-! ## The evaluator on its own -/

/-- C12: for all numbers a, b and every operator symbol op, evaluating the
postfix sequence `a b op` gives `apply_operator(a, b, op)`: the value on top
of the stack is the right-hand operand.  In exact arithmetic `5 3 -` is 2,
not -2. -/
theorem evaluate_postfix_binary {α : Type} (A : DoubleModel α) (a b : α) (op : Char) :
    evaluate_postfix A [Token.Number a, Token.Number b, Token.Operator op]
        = apply_operator A a b op
      ∧ evaluate_postfix exact [Token.Number 5, Token.Number 3, Token.Operator '-'] = .ok 2
      ∧ evaluate_postfix exact [Token.Number 5, Token.Number 3, Token.Operator '-']
        ≠ .ok (-2) := by
  have h2 : evaluate_postfix exact [Token.Number 5, Token.Number 3, Token.Operator '-']
      = .ok 2 := by with_unfolding_all rfl
  refine ⟨?_, h2, ?_⟩
  · simp only [ evaluate_postfix, evaluate_postfix_loop]
    cases apply_operator A a b op <;> rfl
  · rw [h2]
    intro h
    have h' : (2 : ℚ) = -2 := Except.ok.inj h
    norm_num at h'

/-- C13: for all numbers a, b and every character op, `apply_operator` fails
exactly when op is `/` and b compares equal to zero, or op is none of
`+ - * / ^`; the first failure is "Division by zero", the second "Unknown
operator", and in every other case the result is `a op b`. -/
theorem apply_operator_cases {α : Type} (A : DoubleModel α) (a b : α) (op : Char) :
    ((∃ e, apply_operator A a b op = .error e)
        ↔ (op = '/' ∧ A.is_zero b = true) ∨ op ∉ ['+', '-', '*', '/', '^'])
      ∧ (op = '/' ∧ A.is_zero b = true →
          apply_operator A a b op = .error (Fault.runtime_error "Division by zero"))
      ∧ (op ∉ ['+', '-', '*', '/', '^'] →
          apply_operator A a b op = .error (Fault.invalid_argument "Unknown operator"))
      ∧ (op = '+' → apply_operator A a b op = .ok (A.add a b))
      ∧ (op = '-' → apply_operator A a b op = .ok (A.sub a b))
      ∧ (op = '*' → apply_operator A a b op = .ok (A.mul a b))
      ∧ (op = '/' ∧ A.is_zero b = false → apply_operator A a b op = .ok (A.div a b))
      ∧ (op = '^' → apply_operator A a b op = .ok (A.pow a b)) := by
  have hdiv : op = '/' ∧ A.is_zero b = true →
      apply_operator A a b op = .error (Fault.runtime_error "Division by zero") := by
    rintro ⟨rfl, hz⟩
    simp [apply_operator, hz]
  have hunk : op ∉ ['+', '-', '*', '/', '^'] →
      apply_operator A a b op = .error (Fault.invalid_argument "Unknown operator") := by
    intro h
    simp only [List.mem_cons, List.mem_singleton, not_or, List.not_mem_nil, or_false] at h
    obtain ⟨h1, h2, h3, h4, h5⟩ := h
    simp [apply_operator, h1, h2, h3, h4, h5]
  have hadd : op = '+' → apply_operator A a b op = .ok (A.add a b) := by
    rintro rfl; simp [apply_operator]
  have hsub : op = '-' → apply_operator A a b op = .ok (A.sub a b) := by
    rintro rfl; simp [apply_operator]
  have hmul : op = '*' → apply_operator A a b op = .ok (A.mul a b) := by
    rintro rfl; simp [apply_operator]
  have hquo : op = '/' ∧ A.is_zero b = false → apply_operator A a b op = .ok (A.div a b) := by
    rintro ⟨rfl, hz⟩
    simp [apply_operator, hz]
  have hpow : op = '^' → apply_operator A a b op = .ok (A.pow a b) := by
    rintro rfl; simp [apply_operator]
  refine ⟨⟨?_, ?_⟩, hdiv, hunk, hadd, hsub, hmul, hquo, hpow⟩
  · rintro ⟨e, he⟩
    by_cases hin : op ∈ ['+', '-', '*', '/', '^']
    · left
      simp only [List.mem_cons, List.mem_singleton, List.not_mem_nil, or_false] at hin
      rcases hin with h | h | h | h | h
      · rw [hadd h] at he; cases he
      · rw [hsub h] at he; cases he
      · rw [hmul h] at he; cases he
      · refine ⟨h, ?_⟩
        cases hz : A.is_zero b with
        | true => rfl
        | false => rw [hquo ⟨h, hz⟩] at he; cases he
      · rw [hpow h] at he; cases he
    · exact Or.inr hin
  · rintro (h | h)
    · exact ⟨_, hdiv h⟩
    · exact ⟨_, hunk h⟩

/-- C15, as stated, fails on `1 2`: the evaluation ends with the two values 2
and 1 on the stack, and the evaluator returns 2 instead of failing. -/
theorem leftover_values_are_not_an_error :
    evaluate_postfix_loop exact [Token.Number 1, Token.Number 2] [] = .ok [2, 1]
      ∧ evaluate_postfix exact [Token.Number 1, Token.Number 2] = .ok 2 :=
  ⟨rfl, rfl⟩

/-- C15, amended: for every postfix token sequence whose evaluation ends with
one value or more on the stack, the evaluator returns the value on top of the
stack, whatever is left below it. -/
theorem evaluate_postfix_returns_top {α : Type} (A : DoubleModel α) (tokens : List (Token α))
    (top : α) (below : List α)
    (hloop : evaluate_postfix_loop A tokens [] = .ok (top :: below)) :
    evaluate_postfix A tokens = .ok top := by
  simp [ evaluate_postfix, hloop]

/-- Witness of C15 amended: `1 2` ends with 2 above 1 and returns 2. -/
theorem evaluate_postfix_returns_top_witness :
    evaluate_postfix_loop exact [Token.Number 1, Token.Number 2] [] = .ok [2, 1]
      ∧ evaluate_postfix exact [Token.Number 1, Token.Number 2] = .ok 2 :=
  ⟨rfl, evaluate_postfix_returns_top exact [Token.Number 1, Token.Number 2] 2 [1] rfl⟩

/-- The loop of the evaluator skips the Parenthesis and Variable tokens: from
every stack, deleting them from the sequence leaves the run as it is. -/
theorem evaluate_postfix_loop_ignores_others {α : Type} (A : DoubleModel α)
    (tokens : List (Token α)) :
    ∀ values : List α,
      evaluate_postfix_loop A (tokens.filter fun t => t.is_number || t.is_operator) values
        = evaluate_postfix_loop A tokens values := by
  induction tokens with
  | nil => intro values; rfl
  | cons t tokens ih =>
    intro values
    cases t with
    | Number v =>
      simp only [List.filter, Token.is_number, Bool.true_or, evaluate_postfix_loop]
      exact ih (v :: values)
    | Operator op =>
      simp only [List.filter, Token.is_number, Token.is_operator, Bool.or_true,
        evaluate_postfix_loop]
      match values with
      | [] => rfl
      | [_] => rfl
      | b :: a :: values' =>
        simp only
        cases apply_operator A a b op with
        | error e => rfl
        | ok r => exact ih (r :: values')
    | Parenthesis p =>
      simp only [List.filter, Token.is_number, Token.is_operator, Bool.or_false,
        evaluate_postfix_loop]
      exact ih values
    | Variable name =>
      simp only [List.filter, Token.is_number, Token.is_operator, Bool.or_false,
        evaluate_postfix_loop]
      exact ih values

/-- C20: for every token sequence, deleting all Parenthesis and Variable
tokens from it does not change the result of evaluate_postfix.  So a Variable
is never looked up (`x 2` evaluates to 2 like `2`), and an unmatched `(` that
the converter leaves in its output is skipped (`( 1` converts to `1 (` and
evaluates to 1). -/
theorem evaluate_postfix_ignores_others {α : Type} (A : DoubleModel α)
    (tokens : List (Token α)) (x : String) (one two : α) :
    evaluate_postfix A (tokens.filter fun t => t.is_number || t.is_operator)
        = evaluate_postfix A tokens
      ∧ evaluate_postfix A [Token.Variable x, Token.Number two] = .ok two
      ∧ infix_to_postfix [Token.Parenthesis '(', Token.Number one]
        = .ok [Token.Number one, Token.Parenthesis '(']
      ∧ evaluate_postfix A [Token.Number one, Token.Parenthesis '('] = .ok one := by
  refine ⟨?_, rfl, rfl, rfl⟩
  simp only [ evaluate_postfix, evaluate_postfix_loop_ignores_others]

/-! ## The converter on exponents -/

/-- C18: exponentiation is left-associative in the converter: for all numbers
a, b, c the tokens `a ^ b ^ c` convert to `a b ^ c ^`, which evaluates to
`pow(pow(a, b), c)`. -/
theorem power_left_associative {α : Type} (A : DoubleModel α) (a b c : α) :
    infix_to_postfix
        [Token.Number a, Token.Operator '^', Token.Number b, Token.Operator '^', Token.Number c]
        = .ok [Token.Number a, Token.Number b, Token.Operator '^', Token.Number c,
            Token.Operator '^']
      ∧ evaluate_expression A
        [Token.Number a, Token.Operator '^', Token.Number b, Token.Operator '^', Token.Number c]
        = .ok (A.pow (A.pow a b) c) :=
  ⟨rfl, rfl⟩

/-! ## The function table -/

/-- A function called with as many arguments as it was registered for runs
its return statement. -/
theorem callFunction_makeFunction_same_length {α : Type} (name : String) (n : Nat)
    (returnStatement : List (Var α) → Except Fault (Var α)) (table : FunctionTable α)
    (args : List (Var α)) (hlen : args.length = n) :
    callFunction name args (makeFunction name n returnStatement table)
      = returnStatement args := by
  simp [callFunction, makeFunction, hlen]

/-- C16: for every function registered with makeFunction with arity n and
every argument list whose length differs from n, calling it through
callFunction fails with "Incorrect number of arguments."; and callFunction
with a name that is not a key of the function table fails with "Function not
found", whatever the bodies in the table are. -/
theorem callFunction_errors {α : Type} (name missing : String) (n : Nat)
    (returnStatement : List (Var α) → Except Fault (Var α)) (table : FunctionTable α)
    (args : List (Var α)) (hlen : args.length ≠ n) (hmissing : table missing = none) :
    callFunction name args (makeFunction name n returnStatement table)
        = .error (Fault.invalid_argument "Incorrect number of arguments.")
      ∧ callFunction missing args table = .error (Fault.runtime_error "Function not found") := by
  constructor
  · simp [callFunction, makeFunction, hlen]
  · simp [callFunction, hmissing]

/-- Witness of C16: a function registered as `add` with two arguments, called
with one argument, and a call of `mul`, which the table does not hold. -/
theorem callFunction_errors_witness :
    callFunction "add" [Var.int 1]
        (makeFunction "add" 2 (fun _ => .ok (Var.int 0)) (fun _ => none : FunctionTable ℚ))
        = .error (Fault.invalid_argument "Incorrect number of arguments.")
      ∧ callFunction "mul" [Var.int 1] (fun _ => none : FunctionTable ℚ)
        = .error (Fault.runtime_error "Function not found") :=
  callFunction_errors "add" "mul" 2 (fun _ => .ok (Var.int 0)) (fun _ => none) [Var.int 1]
    (by decide) rfl

/-! ## What the converter moves -/

/-- The inner `while` of the Operator case moves a front part of the stack,
made of Operators, to the end of the output. -/
theorem pop_operators_moves {α : Type} (op : Char) :
    ∀ (operators out : List (Token α)),
      ∃ moved rest, operators = moved ++ rest
        ∧ pop_operators op operators out = (rest, out ++ moved)
        ∧ ∀ t ∈ moved, t.is_operator = true := by
  intro operators
  induction operators with
  | nil => intro out; exact ⟨[], [], rfl, by simp [pop_operators], by simp⟩
  | cons top operators ih =>
    intro out
    cases top with
    | Operator top_op =>
      by_cases hprec : precedence top_op ≥ precedence op
      · obtain ⟨moved, rest, hsplit, hpop, hops⟩ := ih (out ++ [Token.Operator top_op])
        refine ⟨Token.Operator top_op :: moved, rest, by simp [hsplit], ?_, ?_⟩
        · simp [pop_operators, hprec, hpop]
        · intro t ht
          rcases List.mem_cons.mp ht with h | h
          · subst h; rfl
          · exact hops t h
      · exact ⟨[], Token.Operator top_op :: operators, rfl, by simp [pop_operators, hprec],
          by simp⟩
    | Number v => exact ⟨[], _, rfl, by simp [pop_operators], by simp⟩
    | Parenthesis p => exact ⟨[], _, rfl, by simp [pop_operators], by simp⟩
    | Variable name => exact ⟨[], _, rfl, by simp [pop_operators], by simp⟩

/-- The `while` of the `)` case moves a front part of the stack, free of
Parentheses, to the end of the output, and stops at a Parenthesis or at the
bottom of the stack. -/
theorem pop_until_parenthesis_moves {α : Type} :
    ∀ (operators out : List (Token α)),
      ∃ moved rest, operators = moved ++ rest
        ∧ pop_until_parenthesis operators out = (rest, out ++ moved)
        ∧ (∀ t ∈ moved, t.is_parenthesis = false)
        ∧ (rest = [] ∨ ∃ p rest', rest = Token.Parenthesis p :: rest') := by
  intro operators
  induction operators with
  | nil => intro out; exact ⟨[], [], rfl, by simp [pop_until_parenthesis], by simp, Or.inl rfl⟩
  | cons top operators ih =>
    intro out
    cases top with
    | Parenthesis p =>
      exact ⟨[], _, rfl, by simp [pop_until_parenthesis], by simp, Or.inr ⟨p, operators, rfl⟩⟩
    | Number v =>
      obtain ⟨moved, rest, hsplit, hpop, hfree, hstop⟩ := ih (out ++ [Token.Number v])
      refine ⟨Token.Number v :: moved, rest, by simp [hsplit], ?_, ?_, hstop⟩
      · simp [pop_until_parenthesis, hpop]
      · intro t ht
        rcases List.mem_cons.mp ht with h | h
        · subst h; rfl
        · exact hfree t h
    | Operator o =>
      obtain ⟨moved, rest, hsplit, hpop, hfree, hstop⟩ := ih (out ++ [Token.Operator o])
      refine ⟨Token.Operator o :: moved, rest, by simp [hsplit], ?_, ?_, hstop⟩
      · simp [pop_until_parenthesis, hpop]
      · intro t ht
        rcases List.mem_cons.mp ht with h | h
        · subst h; rfl
        · exact hfree t h
    | Variable name =>
      obtain ⟨moved, rest, hsplit, hpop, hfree, hstop⟩ := ih (out ++ [Token.Variable name])
      refine ⟨Token.Variable name :: moved, rest, by simp [hsplit], ?_, ?_, hstop⟩
      · simp [pop_until_parenthesis, hpop]
      · intro t ht
        rcases List.mem_cons.mp ht with h | h
        · subst h; rfl
        · exact hfree t h

/-- An Operator is neither a Number nor a Parenthesis. -/
theorem Token.is_operator_shape {α : Type} (t : Token α) (h : t.is_operator = true) :
    t.is_number = false ∧ t.is_parenthesis = false := by
  cases t <;> simp_all [Token.is_operator, Token.is_number, Token.is_parenthesis]

/-- What the loop of the converter returns from any stack and output, when no
`)` lacks its `(`: the Numbers of the output and of the input in their order,
the Operators of output, stack and input in some order, and one Parenthesis
for each `(` that stays open. -/
theorem infix_to_postfix_loop_content {α : Type} :
    ∀ (tokens operators out : List (Token α)) (d : Nat),
      (∀ t ∈ tokens, t.is_variable = false) →
      (∀ t ∈ operators, t.is_number = false) →
      paren_depth tokens (operators.countP Token.is_parenthesis) = some d →
      ∃ res, infix_to_postfix_loop tokens operators out = .ok res
        ∧ res.filter Token.is_number
          = out.filter Token.is_number ++ tokens.filter Token.is_number
        ∧ (res.filter Token.is_operator).Perm
            (out.filter Token.is_operator
              ++ (operators.filter Token.is_operator ++ tokens.filter Token.is_operator))
        ∧ res.countP Token.is_parenthesis = out.countP Token.is_parenthesis + d
        ∧ res.length + tokens.countP Token.is_parenthesis
              + operators.countP Token.is_parenthesis
            = out.length + tokens.length + operators.length + d := by
  intro tokens
  induction tokens with
  | nil =>
    intro operators out d _ hops hdepth
    simp only [paren_depth, Option.some.injEq] at hdepth
    refine ⟨out ++ operators, rfl, ?_, ?_, ?_, ?_⟩
    · have : operators.filter Token.is_number = [] :=
        List.filter_eq_nil_iff.mpr fun t ht => by simp [hops t ht]
      simp [this]
    · simp
    · simp [hdepth]
    · simp [hdepth]
  | cons t tokens ih =>
    intro operators out d hvar hops hdepth
    have hvar' : ∀ t ∈ tokens, t.is_variable = false := fun t ht => hvar t (by simp [ht])
    cases t with
    | Number v =>
      obtain ⟨res, hres, hnum, hop, hpar, hlen⟩ :=
        ih operators (out ++ [Token.Number v]) d hvar' hops (by simpa [paren_depth] using hdepth)
      refine ⟨res, by simpa [infix_to_postfix_loop] using hres, ?_, ?_, ?_, ?_⟩
      · simpa [Token.is_number] using hnum
      · simpa [Token.is_operator] using hop
      · simpa [Token.is_parenthesis] using hpar
      · simp [Token.is_parenthesis] at hlen ⊢
        omega
    | Operator op =>
      obtain ⟨moved, rest, hsplit, hpop, hmoved⟩ := pop_operators_moves op operators out
      have hmoved_num : moved.filter Token.is_number = [] :=
        List.filter_eq_nil_iff.mpr fun t ht => by simp [(Token.is_operator_shape t (hmoved t ht)).1]
      have hmoved_par : moved.countP Token.is_parenthesis = 0 :=
        List.countP_eq_zero.mpr fun t ht => by simp [(Token.is_operator_shape t (hmoved t ht)).2]
      have hrest_num : ∀ t ∈ Token.Operator op :: rest, t.is_number = false := by
        intro t ht
        rcases List.mem_cons.mp ht with h | h
        · subst h; rfl
        · exact hops t (by simp [hsplit, h])
      have hdepth' : paren_depth tokens
          ((Token.Operator op :: rest).countP Token.is_parenthesis) = some d := by
        simp only [paren_depth] at hdepth
        simpa [hsplit, hmoved_par, Token.is_parenthesis] using hdepth
      obtain ⟨res, hres, hnum, hop, hpar, hlen⟩ :=
        ih (Token.Operator op :: rest) (out ++ moved) d hvar' hrest_num hdepth'
      refine ⟨res, by simpa [infix_to_postfix_loop, hpop] using hres, ?_, ?_, ?_, ?_⟩
      · simpa [Token.is_number, hmoved_num] using hnum
      · refine hop.trans ?_
        simp only [List.filter_append, hsplit, List.filter_cons, Token.is_operator, if_true,
          List.append_assoc]
        refine List.Perm.append_left _ (List.Perm.append_left _ ?_)
        exact List.perm_middle.symm
      · simpa [hmoved_par] using hpar
      · simp [hsplit, hmoved_par, Token.is_parenthesis] at hlen ⊢
        omega
    | Parenthesis p =>
      by_cases hopen : p = '('
      · have hdepth' : paren_depth tokens
            ((Token.Parenthesis p :: operators).countP Token.is_parenthesis) = some d := by
          simp only [paren_depth, hopen, if_true] at hdepth
          simpa [Token.is_parenthesis] using hdepth
        have hops' : ∀ t ∈ Token.Parenthesis p :: operators, t.is_number = false := by
          intro t ht
          rcases List.mem_cons.mp ht with h | h
          · subst h; rfl
          · exact hops t h
        obtain ⟨res, hres, hnum, hop, hpar, hlen⟩ :=
          ih (Token.Parenthesis p :: operators) out d hvar' hops' hdepth'
        refine ⟨res, by simpa [infix_to_postfix_loop, hopen] using hres, ?_, ?_, ?_, ?_⟩
        · simpa [Token.is_number] using hnum
        · simpa [Token.is_operator] using hop
        · exact hpar
        · simp [Token.is_parenthesis] at hlen ⊢
          omega
      · by_cases hclose : p = ')'
        · obtain ⟨moved, rest, hsplit, hpop, hfree, hstop⟩ :=
            pop_until_parenthesis_moves operators out
          have hmoved_par : moved.countP Token.is_parenthesis = 0 :=
            List.countP_eq_zero.mpr fun t ht => by simp [hfree t ht]
          have hmoved_num : moved.filter Token.is_number = [] :=
            List.filter_eq_nil_iff.mpr fun t ht => by simp [hops t (by simp [hsplit, ht])]
          simp only [paren_depth, hopen, hclose, if_true, if_false] at hdepth
          rcases hstop with hnil | ⟨q, rest', hrest⟩
          · subst hnil
            simp [hsplit, hmoved_par] at hdepth
          · subst hrest
            have hcount : operators.countP Token.is_parenthesis
                = rest'.countP Token.is_parenthesis + 1 := by
              simp [hsplit, hmoved_par, Token.is_parenthesis]
            rw [hcount] at hdepth
            simp only at hdepth
            have hrest_num : ∀ t ∈ rest', t.is_number = false :=
              fun t ht => hops t (by simp [hsplit, ht])
            obtain ⟨res, hres, hnum, hop, hpar, hlen⟩ :=
              ih rest' (out ++ moved) d hvar' hrest_num hdepth
            refine ⟨res, ?_, ?_, ?_, ?_, ?_⟩
            · simp only [infix_to_postfix_loop, hclose, hpop]
              simpa using hres
            · simpa [Token.is_number, hmoved_num] using hnum
            · simpa [hsplit, Token.is_operator] using hop
            · simpa [hmoved_par] using hpar
            · simp [hsplit, hmoved_par, Token.is_parenthesis] at hlen ⊢
              omega
        · have hdepth' : paren_depth tokens (operators.countP Token.is_parenthesis)
              = some d := by
            simpa [paren_depth, hopen, hclose] using hdepth
          obtain ⟨res, hres, hnum, hop, hpar, hlen⟩ := ih operators out d hvar' hops hdepth'
          refine ⟨res, by simpa [infix_to_postfix_loop, hopen, hclose] using hres, ?_, ?_, ?_,
            ?_⟩
          · simpa [Token.is_number] using hnum
          · simpa [Token.is_operator] using hop
          · exact hpar
          · simp [Token.is_parenthesis] at hlen ⊢
            omega
    | Variable name =>
      have := hvar (Token.Variable name) (by simp)
      simp [Token.is_variable] at this

/-- When a `)` of the input has no `(` to close, the loop of the converter
pops the empty stack. -/
theorem infix_to_postfix_loop_unmatched {α : Type} :
    ∀ (tokens operators out : List (Token α)),
      (∀ t ∈ tokens, t.is_variable = false) →
      paren_depth tokens (operators.countP Token.is_parenthesis) = none →
      infix_to_postfix_loop tokens operators out = .error Fault.undefined_behaviour := by
  intro tokens
  induction tokens with
  | nil => intro operators out _ hdepth; simp [paren_depth] at hdepth
  | cons t tokens ih =>
    intro operators out hvar hdepth
    have hvar' : ∀ t ∈ tokens, t.is_variable = false := fun t ht => hvar t (by simp [ht])
    cases t with
    | Number v =>
      simp only [infix_to_postfix_loop]
      exact ih operators _ hvar' (by simpa [paren_depth] using hdepth)
    | Operator op =>
      obtain ⟨moved, rest, hsplit, hpop, hmoved⟩ := pop_operators_moves op operators out
      have hmoved_par : moved.countP Token.is_parenthesis = 0 :=
        List.countP_eq_zero.mpr fun t ht => by simp [(Token.is_operator_shape t (hmoved t ht)).2]
      simp only [infix_to_postfix_loop, hpop]
      refine ih (Token.Operator op :: rest) _ hvar' ?_
      simp only [paren_depth] at hdepth
      simpa [hsplit, hmoved_par, Token.is_parenthesis] using hdepth
    | Parenthesis p =>
      by_cases hopen : p = '('
      · simp only [infix_to_postfix_loop, hopen, if_true]
        refine ih (Token.Parenthesis '(' :: operators) out hvar' ?_
        simp only [paren_depth, hopen, if_true] at hdepth
        simpa [Token.is_parenthesis] using hdepth
      · by_cases hclose : p = ')'
        · obtain ⟨moved, rest, hsplit, hpop, hfree, hstop⟩ :=
            pop_until_parenthesis_moves operators out
          have hmoved_par : moved.countP Token.is_parenthesis = 0 :=
            List.countP_eq_zero.mpr fun t ht => by simp [hfree t ht]
          simp only [paren_depth, hopen, hclose, if_true, if_false] at hdepth
          rcases hstop with hnil | ⟨q, rest', hrest⟩
          · subst hnil
            simp [infix_to_postfix_loop, hclose, hpop]
          · subst hrest
            have hcount : operators.countP Token.is_parenthesis
                = rest'.countP Token.is_parenthesis + 1 := by
              simp [hsplit, hmoved_par, Token.is_parenthesis]
            rw [hcount] at hdepth
            simp only at hdepth
            simp only [infix_to_postfix_loop, hclose, hpop]
            simpa using ih rest' (out ++ moved) hvar' hdepth
        · simp only [infix_to_postfix_loop, hopen, hclose, if_false]
          exact ih operators out hvar' (by simpa [paren_depth, hopen, hclose] using hdepth)
    | Variable name =>
      have := hvar (Token.Variable name) (by simp)
      simp [Token.is_variable] at this

/-- On Numbers, Operators and Parentheses the converter raises no exception:
it returns an output when every `)` has its `(`, and pops the empty stack
otherwise. -/
theorem infix_to_postfix_returns_iff_matched {α : Type} (tokens : List (Token α))
    (hvar : ∀ t ∈ tokens, t.is_variable = false) :
    ((∃ d, paren_depth tokens 0 = some d) → ∃ out, infix_to_postfix tokens = .ok out)
      ∧ (paren_depth tokens 0 = none →
          infix_to_postfix tokens = .error Fault.undefined_behaviour) := by
  constructor
  · rintro ⟨d, hd⟩
    obtain ⟨res, hres, _⟩ :=
      infix_to_postfix_loop_content tokens [] [] d hvar (by simp) (by simpa using hd)
    exact ⟨res, hres⟩
  · intro hd
    exact infix_to_postfix_loop_unmatched tokens [] [] hvar (by simpa using hd)

/-- C14, the code at the failing input: for the token sequence `)` alone, and
for `v )`, the converter pops the empty operator stack.  The `while` of the
`)` case stops on the empty stack, and the `operators.pop()` after it runs
all the same; the plain tokenizer produces this sequence from the text `)`. -/
theorem unmatched_close_pops_empty_stack {α : Type} (A : DoubleModel α) (v : α) :
    pop_until_parenthesis ([] : List (Token α)) [] = ([], [])
      ∧ infix_to_postfix ([Token.Parenthesis ')'] : List (Token α))
        = .error Fault.undefined_behaviour
      ∧ infix_to_postfix [Token.Number v, Token.Parenthesis ')']
        = .error Fault.undefined_behaviour
      ∧ tokenize A ")".data = [Token.Parenthesis ')']
      ∧ evaluate_input A ")".data = .error Fault.undefined_behaviour :=
  ⟨rfl, rfl, rfl, rfl, rfl⟩

/-- C19: for every infix token sequence of Numbers, Operators and balanced
Parentheses, the converter returns an output that contains no Parenthesis
token, contains the Number tokens of the input in the same relative order,
contains the same multiset of Operator tokens, and has the length of the
input minus its number of parentheses. -/
theorem infix_to_postfix_content {α : Type} (tokens : List (Token α))
    (hvar : ∀ t ∈ tokens, t.is_variable = false) (hbal : balanced tokens = true) :
    ∃ out, infix_to_postfix tokens = .ok out
      ∧ (∀ t ∈ out, t.is_parenthesis = false)
      ∧ out.filter Token.is_number = tokens.filter Token.is_number
      ∧ (out.filter Token.is_operator).Perm (tokens.filter Token.is_operator)
      ∧ out.length = tokens.length - tokens.countP Token.is_parenthesis := by
  have hdepth : paren_depth tokens 0 = some 0 := by
    simpa [balanced] using hbal
  obtain ⟨res, hres, hnum, hop, hpar, hlen⟩ :=
    infix_to_postfix_loop_content tokens [] [] 0 hvar (by simp) (by simpa using hdepth)
  refine ⟨res, hres, ?_, by simpa using hnum, by simpa using hop, ?_⟩
  · intro t ht
    have hzero : res.countP Token.is_parenthesis = 0 := by simpa using hpar
    have := List.countP_eq_zero.mp hzero t ht
    simpa using this
  · simp at hlen
    omega

/-- Witness of C19: the tokens of `( 3 + 4 ) * 2` are balanced and convert to
`3 4 + 2 *`. -/
theorem infix_to_postfix_content_witness :
    balanced grouped_sum_tokens = true
      ∧ infix_to_postfix grouped_sum_tokens
        = .ok [Token.Number 3, Token.Number 4, Token.Operator '+', Token.Number 2,
            Token.Operator '*']
      ∧ ∃ out, infix_to_postfix grouped_sum_tokens = .ok out
        ∧ (∀ t ∈ out, t.is_parenthesis = false)
        ∧ out.filter Token.is_number = grouped_sum_tokens.filter Token.is_number
        ∧ (out.filter Token.is_operator).Perm (grouped_sum_tokens.filter Token.is_operator)
        ∧ out.length
          = grouped_sum_tokens.length - grouped_sum_tokens.countP Token.is_parenthesis :=
  ⟨rfl, rfl,
    infix_to_postfix_content grouped_sum_tokens
      (by simp [grouped_sum_tokens, Token.is_variable]) rfl⟩

/-! ## The converter and the evaluator against the grammar -/

/-- A stack that lets a level through lets every higher level through. -/
theorem stack_below_mono {α : Type} (S : List (Token α)) (k p : Nat) (hkp : k ≤ p)
    (h : stack_below k S = true) : stack_below p S = true := by
  cases S with
  | nil => rfl
  | cons t S =>
    cases t with
    | Operator o =>
      simp only [stack_below, decide_eq_true_eq] at h ⊢
      omega
    | Number v => rfl
    | Parenthesis q => rfl
    | Variable n => rfl

/-- The inner `while` of the Operator case moves all pending Operators of at
least its precedence and stops at a stack that lets that precedence through. -/
theorem pop_operators_pending {α : Type} (op : Char) :
    ∀ (pending S out : List (Token α)),
      (∀ t ∈ pending, ∃ o, t = Token.Operator o ∧ precedence op ≤ precedence o) →
      stack_below (precedence op) S = true →
      pop_operators op (pending ++ S) out = (S, out ++ pending) := by
  intro pending
  induction pending with
  | nil =>
    intro S out _ hS
    cases S with
    | nil => simp [pop_operators]
    | cons t S =>
      cases t with
      | Operator o =>
        simp only [stack_below, decide_eq_true_eq] at hS
        have : ¬ precedence o ≥ precedence op := by omega
        simp [pop_operators, this]
      | Number v => simp [pop_operators]
      | Parenthesis q => simp [pop_operators]
      | Variable n => simp [pop_operators]
  | cons t pending ih =>
    intro S out hp hS
    obtain ⟨o, rfl, ho⟩ := hp t (by simp)
    have hrest := ih S (out ++ [Token.Operator o]) (fun t ht => hp t (by simp [ht])) hS
    simp [pop_operators, ho, hrest]

/-- The `while` of the `)` case moves all pending Operators above a Parenthesis. -/
theorem pop_until_parenthesis_pending {α : Type} (q : Char) (level : Nat) :
    ∀ (pending S out : List (Token α)),
      (∀ t ∈ pending, ∃ o, t = Token.Operator o ∧ level ≤ precedence o) →
      pop_until_parenthesis (pending ++ Token.Parenthesis q :: S) out
        = (Token.Parenthesis q :: S, out ++ pending) := by
  intro pending
  induction pending with
  | nil => intro S out _; simp [pop_until_parenthesis]
  | cons t pending ih =>
    intro S out hp
    obtain ⟨o, rfl, _⟩ := hp t (by simp)
    have hrest := ih S (out ++ [Token.Operator o]) (fun t ht => hp t (by simp [ht]))
    simp [pop_until_parenthesis, hrest]

/-- The converter on the tokens of an expression of the grammar: from a stack
that lets the level of the expression through, it has written the reverse
Polish form of the expression, up to the Operators still pending on the
stack, all of the level of the expression or above. -/
theorem infix_to_postfix_loop_expr {α : Type} (e : Expr α) :
    ∀ (level : Nat) (S out : List (Token α)),
      e.fits level = true → stack_below level S = true →
      ∃ pending out', (∀ t ∈ pending, ∃ o, t = Token.Operator o ∧ level ≤ precedence o)
        ∧ out' ++ pending = out ++ e.rpn
        ∧ ∀ rest, infix_to_postfix_loop (e.tokens ++ rest) S out
            = infix_to_postfix_loop rest (pending ++ S) out' := by
  induction e with
  | number v =>
    intro level S out _ _
    exact ⟨[], out ++ [Token.Number v], by simp, by simp [Expr.rpn],
      fun rest => by simp [Expr.tokens, infix_to_postfix_loop]⟩
  | group e ih =>
    intro level S out hfit _
    obtain ⟨pending, out', hp, hout, hrun⟩ :=
      ih 1 (Token.Parenthesis '(' :: S) out (by simpa [Expr.fits] using hfit) rfl
    refine ⟨[], out ++ e.rpn, by simp, by simp [Expr.rpn], fun rest => ?_⟩
    have hpop := pop_until_parenthesis_pending '(' 1 pending S out' hp
    have htok : (Expr.group e).tokens ++ rest
        = Token.Parenthesis '(' :: (e.tokens ++ Token.Parenthesis ')' :: rest) := by
      simp [Expr.tokens]
    rw [htok]
    simp only [infix_to_postfix_loop, if_true]
    rw [hrun]
    simp [infix_to_postfix_loop, hpop, hout]
  | binary op l r ihl ihr =>
    intro level S out hfit hS
    simp only [Expr.fits, Bool.and_eq_true, decide_eq_true_eq] at hfit
    obtain ⟨⟨⟨_, hlevel⟩, hl⟩, hr⟩ := hfit
    obtain ⟨pl, outl, hpl, houtl, hrunl⟩ :=
      ihl (precedence op) S out hl (stack_below_mono S level _ hlevel hS)
    have hpop := pop_operators_pending op pl S outl hpl (stack_below_mono S level _ hlevel hS)
    obtain ⟨pr, outr, hpr, houtr, hrunr⟩ :=
      ihr (precedence op + 1) (Token.Operator op :: S) (outl ++ pl) hr
        (by simp [stack_below])
    refine ⟨pr ++ [Token.Operator op], outr, ?_, ?_, fun rest => ?_⟩
    · intro t ht
      rcases List.mem_append.mp ht with h | h
      · obtain ⟨o, ho, hle⟩ := hpr t h
        exact ⟨o, ho, by omega⟩
      · exact ⟨op, by simpa using h, hlevel⟩
    · rw [← List.append_assoc, houtr, houtl]
      simp [Expr.rpn]
    · have htok : (Expr.binary op l r).tokens ++ rest
          = l.tokens ++ Token.Operator op :: (r.tokens ++ rest) := by
        simp [Expr.tokens]
      rw [htok, hrunl]
      simp only [infix_to_postfix_loop, hpop]
      rw [hrunr]
      simp

/-- The evaluator on the reverse Polish form of an expression: it leaves the
value of the expression on the stack, or fails as the expression does. -/
theorem evaluate_postfix_loop_rpn {α : Type} (A : DoubleModel α) (e : Expr α) :
    ∀ (rest : List (Token α)) (values : List α),
      evaluate_postfix_loop A (e.rpn ++ rest) values
        = match e.value A with
          | .ok v => evaluate_postfix_loop A rest (v :: values)
          | .error err => .error err := by
  induction e with
  | number v => intro rest values; simp [Expr.rpn, Expr.value, evaluate_postfix_loop]
  | group e ih => intro rest values; simpa [Expr.rpn, Expr.value] using ih rest values
  | binary op l r ihl ihr =>
    intro rest values
    simp only [Expr.rpn, List.append_assoc, Expr.value]
    rw [ihl]
    cases hl : l.value A with
    | error err => rfl
    | ok a =>
      simp only
      rw [ihr]
      cases hr : r.value A with
      | error err => rfl
      | ok b =>
        simp only [List.singleton_append, evaluate_postfix_loop]
        cases apply_operator A a b op <;> rfl

/-- An expression of the grammar fails only by a division by zero. -/
theorem Expr.value_error {α : Type} (A : DoubleModel α) (e : Expr α) :
    ∀ (level : Nat) (err : Fault), e.fits level = true → e.value A = .error err →
      err = Fault.runtime_error "Division by zero" := by
  induction e with
  | number v => intro level err _ h; simp [Expr.value] at h
  | group e ih =>
    intro level err hfit h
    exact ih 1 err (by simpa [Expr.fits] using hfit) (by simpa [Expr.value] using h)
  | binary op l r ihl ihr =>
    intro level err hfit h
    simp only [Expr.fits, Bool.and_eq_true, decide_eq_true_eq] at hfit
    obtain ⟨⟨⟨hop, _⟩, hl⟩, hr⟩ := hfit
    simp only [Expr.value] at h
    cases hlv : l.value A with
    | error e1 =>
      rw [hlv] at h
      simp only [Except.error.injEq] at h
      subst h
      exact ihl _ _ hl hlv
    | ok a =>
      rw [hlv] at h
      simp only at h
      cases hrv : r.value A with
      | error e2 =>
        rw [hrv] at h
        simp only [Except.error.injEq] at h
        subst h
        exact ihr _ _ hr hrv
      | ok b =>
        rw [hrv] at h
        simp only at h
        simp only [List.mem_cons, List.mem_singleton, List.not_mem_nil, or_false] at hop
        rcases hop with rfl | rfl | rfl | rfl | rfl
        · simp [apply_operator] at h
        · simp [apply_operator] at h
        · simp [apply_operator] at h
        · cases hz : A.is_zero b with
          | true => simpa [apply_operator, hz] using h.symm
          | false => simp [apply_operator, hz] at h
        · simp [apply_operator] at h

/-- C17: for every expression of the grammar, the converter turns its tokens
into its reverse Polish form, the evaluator runs over that form without
taking from an empty stack and ends with exactly one value on it, and the
result is the value of the expression read with the three precedence levels
and left-to-right grouping; it fails exactly when that reading fails, which
it does only by a division by zero. -/
theorem evaluate_expression_reference {α : Type} (A : DoubleModel α) (e : Expr α)
    (hfit : e.fits 1 = true) :
    infix_to_postfix e.tokens = .ok e.rpn
      ∧ evaluate_postfix_loop A e.rpn []
        = (match e.value A with
          | .ok v => .ok [v]
          | .error err => .error err)
      ∧ evaluate_expression A e.tokens = e.value A
      ∧ evaluate_expression A e.tokens ≠ .error Fault.undefined_behaviour
      ∧ ∀ err, evaluate_expression A e.tokens = .error err →
          err = Fault.runtime_error "Division by zero" := by
  have hconv : infix_to_postfix e.tokens = .ok e.rpn := by
    obtain ⟨pending, out', _, hout, hrun⟩ := infix_to_postfix_loop_expr e 1 [] [] hfit rfl
    have h := hrun []
    simp only [List.append_nil, infix_to_postfix_loop] at h
    rw [ infix_to_postfix, h, hout]
    simp
  have hloop : evaluate_postfix_loop A e.rpn []
      = (match e.value A with
        | .ok v => .ok [v]
        | .error err => .error err) := by
    have h := evaluate_postfix_loop_rpn A e [] []
    simp only [List.append_nil] at h
    rw [h]
    cases e.value A <;> rfl
  have heval : evaluate_expression A e.tokens = e.value A := by
    simp only [evaluate_expression, hconv, evaluate_postfix, hloop]
    cases e.value A <;> rfl
  have herr : ∀ err, evaluate_expression A e.tokens = .error err →
      err = Fault.runtime_error "Division by zero" := by
    intro err h
    rw [heval] at h
    exact Expr.value_error A e 1 err hfit h
  refine ⟨hconv, hloop, heval, ?_, herr⟩
  intro h
  have := herr _ h
  cases this

/-- Witness of C17: `1 - 2 - 3 * (4 + 5) / 6` is an expression of the grammar
and evaluates to -11/2 in exact arithmetic. -/
theorem evaluate_expression_reference_witness :
    sample_expression.fits 1 = true
      ∧ sample_expression.tokens
        = [Token.Number 1, Token.Operator '-', Token.Number 2, Token.Operator '-',
            Token.Number 3, Token.Operator '*', Token.Parenthesis '(', Token.Number 4,
            Token.Operator '+', Token.Number 5, Token.Parenthesis ')', Token.Operator '/',
            Token.Number 6]
      ∧ sample_expression.value exact = .ok (-11 / 2)
      ∧ infix_to_postfix sample_expression.tokens = .ok sample_expression.rpn
      ∧ evaluate_expression exact sample_expression.tokens = sample_expression.value exact :=
  ⟨by decide, rfl, by with_unfolding_all rfl,
    (evaluate_expression_reference exact sample_expression (by decide)).1,
    (evaluate_expression_reference exact sample_expression (by decide)).2.2.1⟩

end SMEP
